import Mathlib

/-
Verification of the segmentation (`cutVideo`) and concatenation (`combineVideos`)
engines of src/utils/videoUtils.ts, over a shallow embedding.

Modelling conventions:
* JavaScript number arithmetic on timestamps and durations is modelled by exact
  rationals (ℚ); `Math.floor` / `Math.ceil` are `Int.floor` / `Int.ceil`.
* The mp4box.js adapter is external to the repository; parsing is modelled by an
  oracle attached to each buffer (`VideoFile.parse`), and sample extraction
  delivers exactly the samples recorded on each parsed track, per track in
  order, as the adapter callbacks do.
-/

namespace VU

/-- One extracted media sample: decoding timestamp (dts), composition timestamp
(cts) and the payload bytes, mirroring the mp4box sample fields that
videoUtils.ts reads and writes. -/
structure SampleRec where
  dts : ℚ
  cts : ℚ
  data : List Nat
  deriving Repr, DecidableEq

/-- One source track as reported by parsing: the descriptor fields videoUtils.ts
uses (id, timescale, nb_samples, duration, and an opaque blob standing for the
remaining copied descriptor fields such as codec configuration), together with
the samples that extraction delivers for this track. -/
structure Track where
  id : Nat
  timescale : ℚ
  nb_samples : Nat
  duration : ℚ
  config : List Nat
  samples : List SampleRec
  deriving Repr, DecidableEq

/-- Parsed container metadata, as delivered by the adapter's onReady callback. -/
structure Info where
  duration : ℚ
  timescale : ℚ
  tracks : List Track
  deriving Repr, DecidableEq

/-- A fetched video buffer together with the outcome of parsing it;
`parse = none` models a buffer the adapter rejects via onError. -/
structure VideoFile where
  bytes : List Nat
  parse : Option Info
  deriving Repr, DecidableEq

/-- The failure modes of videoUtils.ts, one per distinct rejection site. -/
inductive MediaError where
  | parseError
  | noTracks
  | invalidDuration
  | extractionFailure
  | emptyInput
  deriving Repr, DecidableEq

/-- getInfo (videoUtils.ts lines 13-29): reject on adapter parse failure, or
with "Invalid video file: No tracks found." when the parsed info has no
tracks; otherwise resolve with the info. -/
def getInfo (v : VideoFile) : Except MediaError Info :=
  match v.parse with
  | none => .error .parseError
  | some info => if info.tracks = [] then .error .noTracks else .ok info

/-- getSamples (videoUtils.ts lines 32-62): sets extraction options for the
FIRST track only (trackId = info.tracks[0].id) and resolves with all of that
track's samples. -/
def getSamples (v : VideoFile) : Except MediaError (List SampleRec) :=
  match v.parse with
  | none => .error .parseError
  | some info =>
    match info.tracks with
    | [] => .error .noTracks
    | t :: _ => .ok t.samples

/-- A destination track inside an output container builder: the descriptor
passed to the adapter's addTrack, plus the samples appended via addSample. -/
structure OutTrack where
  id : Nat
  timescale : ℚ
  nb_samples : Nat
  duration : ℚ
  config : List Nat
  samples : List SampleRec
  deriving Repr, DecidableEq

/-- An output container builder (one MP4Box.createFile() destination): its
destination tracks in creation order. -/
abbrev SegFile := List OutTrack

/-- cutVideo step 1 (lines 89-97): one destination track per source track in
each segment file, copying the descriptor with nb_samples and duration reset
to zero (addTrack with the spread of the source track). -/
def mkSegFile (tracks : List Track) : SegFile :=
  tracks.map fun t =>
    { id := t.id, timescale := t.timescale, nb_samples := 0, duration := 0,
      config := t.config, samples := [] }

/-- The adapter's addSample(trackId, data, sample): append the sample to the
first destination track with the given id. -/
def addSampleToFile : SegFile → Nat → SampleRec → SegFile
  | [], _, _ => []
  | tr :: rest, tid, s =>
    if tr.id = tid then { tr with samples := tr.samples ++ [s] } :: rest
    else tr :: addSampleToFile rest tid s

/-- In-place update of segmentFiles[k]. -/
def updateAt : List α → Nat → (α → α) → List α
  | [], _, _ => []
  | a :: rest, 0, g => g a :: rest
  | a :: rest, Nat.succ k, g => a :: updateAt rest k g

/-- cutVideo lines 122-123: segmentIndex = Math.floor((sample.dts / timescale)
/ segmentDuration). -/
def segIndex (d ts : ℚ) (s : SampleRec) : ℤ := ⌊s.dts / ts / d⌋

/-- cutVideo lines 128-134: copy the sample and shift both timestamps by
segmentStartTimeInTimescale = segmentIndex * segmentDuration * timescale. -/
def rebase (d ts : ℚ) (i : ℤ) (s : SampleRec) : SampleRec :=
  { dts := s.dts - (i : ℚ) * d * ts, cts := s.cts - (i : ℚ) * d * ts,
    data := s.data }

/-- cutVideo lines 120-137: place one delivered sample into its segment file,
silently dropping it when its segment index is outside [0, numSegments). -/
def placeSample (d : ℚ) (n : ℤ) (ts : ℚ) (tid : Nat) (files : List SegFile)
    (s : SampleRec) : List SegFile :=
  let i := segIndex d ts s
  if 0 ≤ i ∧ i < n then
    updateAt files i.toNat (fun f => addSampleToFile f tid (rebase d ts i s))
  else files

/-- One onSamples delivery for a track: place each of its samples in order. -/
def placeTrackSamples (d : ℚ) (n : ℤ) (files : List SegFile) (t : Track) :
    List SegFile :=
  t.samples.foldl (placeSample d n t.timescale t.id) files

/-- The whole extraction pass of cutVideo: samples are delivered per track
(extraction is configured for every track, per-track order is source order). -/
def distribute (d : ℚ) (n : ℤ) (tracks : List Track) (files : List SegFile) :
    List SegFile :=
  tracks.foldl (placeTrackSamples d n) files

/-- cutVideo line 81: numSegments = Math.ceil(totalDurationInSeconds /
segmentDuration), with totalDurationInSeconds = duration / timescale. -/
def numSegments (info : Info) (d : ℚ) : ℤ := ⌈info.duration / info.timescale / d⌉

/-- The segment builders of cutVideo after the single extraction pass:
numSegments fresh builders (none when numSegments is not positive), each with
mirrored destination tracks, filled by distributing every track's samples. -/
def cutBuilders (v : VideoFile) (d : ℚ) : List SegFile :=
  match getInfo v with
  | .error _ => []
  | .ok info =>
      distribute d (numSegments info d) info.tracks
        (List.replicate (numSegments info d).toNat (mkSegFile info.tracks))

/-- Modelled from the spec: the container writer's finalize step (the adapter's
getBuffer, called by videoUtils.ts line 144) is not part of this repository.
Spec section 4.1 step 4 and section 4.3 describe finalize as producing the
output buffer from the appended samples, with a builder that received no
samples yielding an empty buffer, so that the byteLength > 0 test of line 145
keeps exactly the builders that received at least one sample. The buffer is
modelled as the sequence of samples appended across the builder's tracks. -/
def getBuffer (f : SegFile) : List SampleRec := (f.map OutTrack.samples).flatten

/-- All samples stored across a list of builders. -/
def storedSamples (files : List SegFile) : List SampleRec :=
  (files.map getBuffer).flatten

/-- All samples of all tracks of a parsed source. -/
def sourceSamples (info : Info) : List SampleRec :=
  (info.tracks.map Track.samples).flatten

/-- One returned clip (lines 146-148): the contents of the finalized buffer
that the blob is built from, and the clip's name. -/
structure Clip where
  buf : List SampleRec
  name : String
  deriving Repr, DecidableEq

/-- String(i + 1).padStart(2, '0'). -/
def padStart2 (s : String) : String :=
  if s.length < 2 then String.mk (List.replicate (2 - s.length) '0') ++ s else s

/-- Line 148: the name of the clip for segment index i. -/
def clipName (i : Nat) : String := "clip_" ++ padStart2 (toString (i + 1)) ++ ".mp4"

/-- cutVideo onFlush loop (lines 141-150): finalize every builder in index
order (getBuffer runs unconditionally on each) and keep a clip entry exactly
for the builders whose buffer is non-empty. -/
def finalizeFrom : Nat → List SegFile → List Clip
  | _, [] => []
  | i, f :: rest =>
    let segmentBuffer := getBuffer f
    if 0 < segmentBuffer.length then
      { buf := segmentBuffer, name := clipName i } :: finalizeFrom (i + 1) rest
    else finalizeFrom (i + 1) rest

/-- The buffers the onFlush loop produces: line 144 evaluates getBuffer for
every builder, before the byteLength test decides whether to keep it. -/
def finalizedBuffers (files : List SegFile) : List (List SampleRec) :=
  files.map getBuffer

/-- The segment indices whose builders pass the byteLength > 0 test, in loop
order, starting the count at a given index. -/
def keptIndicesFrom : Nat → List SegFile → List Nat
  | _, [] => []
  | i, f :: rest =>
    if 0 < (getBuffer f).length then i :: keptIndicesFrom (i + 1) rest
    else keptIndicesFrom (i + 1) rest

/-- cutVideo (videoUtils.ts lines 72-168): parse, reject non-positive total
duration, build and fill the segment builders, finalize, and reject when no
clip was produced although numSegments is positive. -/
def cutVideo (v : VideoFile) (d : ℚ) : Except MediaError (List Clip) :=
  match getInfo v with
  | .error e => .error e
  | .ok info =>
    if info.duration / info.timescale ≤ 0 then .error .invalidDuration
    else
      let clips := finalizeFrom 0 (cutBuilders v d)
      if clips.length = 0 ∧ 0 < numSegments info d then .error .extractionFailure
      else .ok clips

/-- The externally visible steps of combineVideos, in program order: creating
the destination container, parsing a source (by input position), extracting a
source's samples. -/
inductive Event where
  | createContainer
  | parseSource (i : Nat)
  | extractSamples (i : Nat)
  deriving Repr, DecidableEq

/-- The result of combineVideos: either the single input returned unchanged
(line 177), or a freshly built destination container. -/
inductive CombineOutput where
  | passthrough (v : VideoFile)
  | built (f : SegFile)
  deriving Repr, DecidableEq

/-- combineVideos lines 207-208: shift one sample by the accumulated duration
(sample.dts += accumulatedDuration; sample.cts += accumulatedDuration). -/
def shiftSample (off : ℚ) (s : SampleRec) : SampleRec :=
  { s with dts := s.dts + off, cts := s.cts + off }

/-- combineVideos lines 199-214, the per-source loop: for each source in input
order, parse it, extract the samples of its first track, append them (shifted
by the accumulated duration) to the single destination track, then add the
source's reported duration to the accumulator. `i` is the source's position,
used only for the event trace. -/
def combineLoop : List VideoFile → Nat → ℚ → OutTrack → List Event →
    List Event × Except MediaError OutTrack
  | [], _, _, tr, evs => (evs, .ok tr)
  | v :: rest, i, acc, tr, evs =>
    match getInfo v with
    | .error e => (evs ++ [.parseSource i], .error e)
    | .ok info =>
      match getSamples v with
      | .error e => (evs ++ [.parseSource i, .extractSamples i], .error e)
      | .ok samples =>
        let tr' := samples.foldl
          (fun t s => { t with samples := t.samples ++ [shiftSample acc s] }) tr
        combineLoop rest (i + 1) (acc + info.duration) tr'
          (evs ++ [.parseSource i, .extractSamples i])

/-- combineVideos (videoUtils.ts lines 175-220), instrumented with the event
trace: empty input fails immediately; a single input is returned unchanged;
otherwise a destination container is created with one track copied from the
first source's first track (id overwritten to 1, nb_samples and duration reset
to 0), every source is processed by the loop, and the built container is
returned. -/
def combineVideos (vs : List VideoFile) :
    List Event × Except MediaError CombineOutput :=
  match vs with
  | [] => ([], .error .emptyInput)
  | [v] => ([], .ok (.passthrough v))
  | v0 :: v1 :: rest =>
    match getInfo v0 with
    | .error e => ([.createContainer, .parseSource 0], .error e)
    | .ok info0 =>
      match info0.tracks with
      | [] => ([.createContainer, .parseSource 0], .error .noTracks)
      | ft :: _ =>
        let tr0 : OutTrack :=
          { id := 1, timescale := ft.timescale, nb_samples := 0, duration := 0,
            config := ft.config, samples := [] }
        match combineLoop (v0 :: v1 :: rest) 0 0 tr0
            [.createContainer, .parseSource 0] with
        | (evs, .error e) => (evs, .error e)
        | (evs, .ok tr) => (evs, .ok (.built [tr]))

/-- A buffer the adapter parses successfully into at least one track. -/
def parseOk (v : VideoFile) : Bool :=
  match v.parse with
  | none => false
  | some info => !info.tracks.isEmpty

/-- Explicit characterization of the sample list accumulated by the combine
loop: for each source in input order, the samples of its first track shifted
by the sum of the reported durations of the earlier sources. Used to state
the combine theorems. -/
def expectedCombined : List VideoFile → ℚ → List SampleRec
  | [], _ => []
  | v :: rest, acc =>
    match v.parse with
    | none => []
    | some info =>
      (match info.tracks with
       | [] => []
       | t :: _ => t.samples.map (shiftSample acc)) ++
      expectedCombined rest (acc + info.duration)

/-
Concrete inputs used by witnesses and counterexamples.
-/

/-- A 2-second source (timescale 1) with a single track whose only sample sits
at dts 0: cutting with segment duration 1 makes the second window empty. -/
def infoC2 : Info :=
  { duration := 2, timescale := 1,
    tracks := [{ id := 1, timescale := 1, nb_samples := 1, duration := 2,
                 config := [3], samples := [{ dts := 0, cts := 0, data := [7] }] }] }

def vC2 : VideoFile := { bytes := [0], parse := some infoC2 }

/-- A 2-second source whose only sample has cts smaller than dts and lies in
the second segment window. -/
def infoC3 : Info :=
  { duration := 2, timescale := 1,
    tracks := [{ id := 1, timescale := 1, nb_samples := 1, duration := 2,
                 config := [3], samples := [{ dts := 1, cts := 0, data := [7] }] }] }

def vC3 : VideoFile := { bytes := [0], parse := some infoC3 }

/-- A 2-second source with a track carrying no samples at all. -/
def infoC5 : Info :=
  { duration := 2, timescale := 1,
    tracks := [{ id := 1, timescale := 1, nb_samples := 0, duration := 2,
                 config := [3], samples := [] }] }

def vC5 : VideoFile := { bytes := [0], parse := some infoC5 }

/-- A 2-second source with one sample at dts 0. -/
def infoW5 : Info :=
  { duration := 2, timescale := 1,
    tracks := [{ id := 1, timescale := 1, nb_samples := 1, duration := 2,
                 config := [4], samples := [{ dts := 0, cts := 0, data := [9] }] }] }

def vW5 : VideoFile := { bytes := [1], parse := some infoW5 }

/-- A kept sample landing in segment window 1 when d = 1 and timescale = 2. -/
def sW3 : SampleRec := { dts := 3, cts := 4, data := [2] }

/-- A track shape shared by the two C7 witness sources. -/
def t7 : Track :=
  { id := 1, timescale := 1, nb_samples := 0, duration := 1, config := [], samples := [] }

/-- An out-of-range sample: its dts is negative, so its segment index is -1. -/
def s7 : SampleRec := { dts := -1, cts := -1, data := [3] }

def v7a : VideoFile :=
  { bytes := [7], parse := some { duration := 1, timescale := 1,
                                  tracks := [{ t7 with samples := [s7] }] } }

def v7b : VideoFile :=
  { bytes := [7], parse := some { duration := 1, timescale := 1, tracks := [t7] } }

/-- A two-track source: the concatenation engine only ever copies and fills
its first track. -/
def infoA : Info :=
  { duration := 10, timescale := 1,
    tracks := [{ id := 1, timescale := 1, nb_samples := 1, duration := 10,
                 config := [11], samples := [{ dts := 0, cts := 0, data := [4] }] },
               { id := 2, timescale := 1, nb_samples := 1, duration := 10,
                 config := [12], samples := [{ dts := 0, cts := 0, data := [5] }] }] }

def vA : VideoFile := { bytes := [1], parse := some infoA }

def infoB : Info :=
  { duration := 5, timescale := 1,
    tracks := [{ id := 1, timescale := 1, nb_samples := 1, duration := 5,
                 config := [13], samples := [{ dts := 0, cts := 0, data := [6] }] }] }

def vB : VideoFile := { bytes := [2], parse := some infoB }

/-- Single-track pair for the C1 witness. -/
def infoAw : Info :=
  { duration := 4, timescale := 1,
    tracks := [{ id := 1, timescale := 1, nb_samples := 1, duration := 4,
                 config := [21], samples := [{ dts := 0, cts := 1, data := [8] }] }] }

def vAw : VideoFile := { bytes := [3], parse := some infoAw }

def infoBw : Info :=
  { duration := 6, timescale := 1,
    tracks := [{ id := 1, timescale := 1, nb_samples := 1, duration := 6,
                 config := [22], samples := [{ dts := 2, cts := 3, data := [9] }] }] }

def vBw : VideoFile := { bytes := [4], parse := some infoBw }

/-- Single-track pair for the C10 witness. -/
def infoAx : Info :=
  { duration := 5, timescale := 1,
    tracks := [{ id := 1, timescale := 1, nb_samples := 1, duration := 5,
                 config := [31], samples := [{ dts := 1, cts := 1, data := [10] }] }] }

def vAx : VideoFile := { bytes := [5], parse := some infoAx }

def infoBx : Info :=
  { duration := 3, timescale := 1,
    tracks := [{ id := 1, timescale := 1, nb_samples := 1, duration := 3,
                 config := [32], samples := [{ dts := 0, cts := 0, data := [11] }] }] }

def vBx : VideoFile := { bytes := [6], parse := some infoBx }

/-- Builders for the C6 witness: one with a sample, one with an empty track,
one with another sample. -/
def fileA : SegFile := [{ id := 1, timescale := 1, nb_samples := 0, duration := 0,
                          config := [], samples := [{ dts := 0, cts := 0, data := [1] }] }]

def fileE : SegFile := [{ id := 1, timescale := 1, nb_samples := 0, duration := 0,
                          config := [], samples := [] }]

def fileB : SegFile := [{ id := 1, timescale := 1, nb_samples := 0, duration := 0,
                          config := [], samples := [{ dts := 5, cts := 5, data := [2] }] }]

/-
Helper lemmas.
-/

theorem getInfo_eq_ok {v : VideoFile} {info : Info} (hp : v.parse = some info)
    (ht : info.tracks ≠ []) : getInfo v = .ok info := by
  simp [getInfo, hp, ht]

theorem placeSample_nil (d : ℚ) (n : ℤ) (ts : ℚ) (tid : Nat) (s : SampleRec) :
    placeSample d n ts tid [] s = [] := by
  by_cases h : 0 ≤ segIndex d ts s ∧ segIndex d ts s < n <;>
    simp [placeSample, h, updateAt]

theorem foldl_place_nil (d : ℚ) (n : ℤ) (ts : ℚ) (tid : Nat) :
    ∀ ss : List SampleRec, List.foldl (placeSample d n ts tid) [] ss = [] := by
  intro ss
  induction ss with
  | nil => rfl
  | cons s rest ih => simp [List.foldl_cons, placeSample_nil, ih]

theorem distribute_nil (d : ℚ) (n : ℤ) :
    ∀ tracks : List Track, distribute d n tracks [] = [] := by
  intro tracks
  induction tracks with
  | nil => rfl
  | cons t rest ih =>
      simp only [distribute, List.foldl_cons] at ih ⊢
      simpa [placeTrackSamples, foldl_place_nil] using ih

/-- C9: for a parseable source with positive total duration, a negative
segment duration makes cutVideo resolve successfully with an empty clip
list: numSegments is non-positive, so no builder is created and the
zero-output rejection is skipped because it is guarded by numSegments > 0. -/
theorem cut_negative_duration_empty (v : VideoFile) (d : ℚ) (info : Info)
    (hp : v.parse = some info) (ht : info.tracks ≠ [])
    (hpos : 0 < info.duration / info.timescale) (hd : d < 0) :
    cutVideo v d = .ok [] := by
  have hok := getInfo_eq_ok hp ht
  have hquot : info.duration / info.timescale / d < 0 :=
    div_neg_of_pos_of_neg hpos hd
  have hn : numSegments info d ≤ 0 := by
    have : numSegments info d ≤ (0 : ℤ) := by
      rw [numSegments, Int.ceil_le]
      push_cast
      exact le_of_lt hquot
    exact this
  have hb : cutBuilders v d = [] := by
    simp only [cutBuilders, hok, Int.toNat_of_nonpos hn, List.replicate_zero]
    exact distribute_nil _ _ _
  simp only [cutVideo, hok, not_le.mpr hpos, if_false]
  simp [hb, finalizeFrom, not_lt.mpr hn]

/-- Witness for C9 at a concrete source and segment duration -1. -/
theorem cut_negative_duration_empty_witness : cutVideo vC2 (-1) = .ok [] :=
  cut_negative_duration_empty vC2 (-1) infoC2 rfl
    (by simp [infoC2]) (by norm_num [infoC2]) (by norm_num)

/-- C8: combineVideos on the empty list fails with the empty-input error, and
the empty event trace shows that this happens before any destination
container is created. -/
theorem combine_empty_input : combineVideos [] = ([], .error .emptyInput) := rfl

/-- C4: combineVideos on a single-element list returns that element itself
unchanged (byte-identical pass-through), and the empty event trace shows that
no parsing or extraction of the element is performed. -/
theorem combine_single_passthrough (v : VideoFile) :
    combineVideos [v] = ([], .ok (.passthrough v)) := rfl

theorem foldl_place_out {d : ℚ} {n : ℤ} {ts : ℚ} {tid : Nat} {s : SampleRec}
    (hout : ¬(0 ≤ segIndex d ts s ∧ segIndex d ts s < n)) :
    ∀ (files : List SegFile) (pre post : List SampleRec),
      List.foldl (placeSample d n ts tid) files (pre ++ s :: post) =
        List.foldl (placeSample d n ts tid) files (pre ++ post) := by
  intro files pre post
  rw [List.foldl_append, List.foldl_append, List.foldl_cons]
  have hdrop : placeSample d n ts tid (List.foldl (placeSample d n ts tid) files pre) s =
      List.foldl (placeSample d n ts tid) files pre := by
    simp [placeSample, hout]
  rw [hdrop]

/-- C7: a sample whose segment index falls outside [0, numSegments) is
silently dropped: cutVideo on a source containing it behaves exactly as
cutVideo on the same source without it, so the sample ends up in no output
segment and its occurrence raises no error (the whole result, success or
failure, is unchanged). -/
theorem cut_out_of_range_dropped (v v' : VideoFile) (d D TS : ℚ)
    (A B : List Track) (t : Track) (pre post : List SampleRec) (s : SampleRec)
    (hp : v.parse =
      some { duration := D, timescale := TS,
             tracks := A ++ ({ t with samples := pre ++ s :: post }) :: B })
    (hp' : v'.parse =
      some { duration := D, timescale := TS,
             tracks := A ++ ({ t with samples := pre ++ post }) :: B })
    (hout : ¬(0 ≤ segIndex d t.timescale s ∧
              segIndex d t.timescale s < ⌈D / TS / d⌉)) :
    cutVideo v d = cutVideo v' d := by
  have h1 : getInfo v =
      .ok { duration := D, timescale := TS,
            tracks := A ++ ({ t with samples := pre ++ s :: post }) :: B } :=
    getInfo_eq_ok hp (by simp)
  have h2 : getInfo v' =
      .ok { duration := D, timescale := TS,
            tracks := A ++ ({ t with samples := pre ++ post }) :: B } :=
    getInfo_eq_ok hp' (by simp)
  have hmk : mkSegFile (A ++ ({ t with samples := pre ++ s :: post }) :: B) =
      mkSegFile (A ++ ({ t with samples := pre ++ post }) :: B) := by
    simp [mkSegFile]
  have hdist : ∀ F : List SegFile,
      distribute d ⌈D / TS / d⌉ (A ++ ({ t with samples := pre ++ s :: post }) :: B) F =
        distribute d ⌈D / TS / d⌉ (A ++ ({ t with samples := pre ++ post }) :: B) F := by
    intro F
    simp only [distribute, List.foldl_append, List.foldl_cons]
    have hstep : placeTrackSamples d ⌈D / TS / d⌉
        (List.foldl (placeTrackSamples d ⌈D / TS / d⌉) F A)
        ({ t with samples := pre ++ s :: post }) =
        placeTrackSamples d ⌈D / TS / d⌉
          (List.foldl (placeTrackSamples d ⌈D / TS / d⌉) F A)
          ({ t with samples := pre ++ post }) := by
      simp only [placeTrackSamples]
      exact foldl_place_out hout _ pre post
    rw [hstep]
  have hb : cutBuilders v d = cutBuilders v' d := by
    simp only [cutBuilders, h1, h2, numSegments, hmk]
    exact hdist _
  simp only [cutVideo, h1, h2, numSegments, hb]

/-- Witness for C7: a sample at negative dts (segment index -1) is dropped;
the source carrying it cuts to the same result as the source without it. -/
theorem cut_out_of_range_dropped_witness : cutVideo v7a 1 = cutVideo v7b 1 :=
  cut_out_of_range_dropped v7a v7b 1 1 1 [] [] t7 [] [] s7 rfl rfl
    (by norm_num [segIndex, s7, t7])

/-- C3 (amended): a sample kept by cut (segment index inside [0, numSegments))
is rebased to a destination dts with 0 ≤ dts < segmentDuration · timescale;
the rebased cts is only guaranteed non-negative when the source cts is at
least the source dts (the code subtracts the same offset from both, so a
composition timestamp below the decoding timestamp can rebase negative). -/
theorem cut_kept_sample_bounds (d ts : ℚ) (n : ℤ) (s : SampleRec)
    (hd : 0 < d) (hts : 0 < ts)
    (hkept : 0 ≤ segIndex d ts s ∧ segIndex d ts s < n) :
    0 ≤ (rebase d ts (segIndex d ts s) s).dts ∧
    (rebase d ts (segIndex d ts s) s).dts < d * ts ∧
    (s.dts ≤ s.cts → 0 ≤ (rebase d ts (segIndex d ts s) s).cts) := by
  have h1 : ((segIndex d ts s : ℤ) : ℚ) ≤ s.dts / ts / d := Int.floor_le _
  have h2 : s.dts / ts / d < (segIndex d ts s : ℚ) + 1 := Int.lt_floor_add_one _
  rw [div_div] at h1 h2
  have htd : 0 < ts * d := mul_pos hts hd
  have h1' : ((segIndex d ts s : ℤ) : ℚ) * (ts * d) ≤ s.dts := (le_div_iff₀ htd).mp h1
  have h2' : s.dts < (((segIndex d ts s : ℤ) : ℚ) + 1) * (ts * d) :=
    (div_lt_iff₀ htd).mp h2
  have e1 : ((segIndex d ts s : ℤ) : ℚ) * (ts * d) =
      ((segIndex d ts s : ℤ) : ℚ) * d * ts := by ring
  have e2 : (((segIndex d ts s : ℤ) : ℚ) + 1) * (ts * d) =
      ((segIndex d ts s : ℤ) : ℚ) * d * ts + d * ts := by ring
  refine ⟨?_, ?_, ?_⟩
  · simp only [rebase]
    linarith
  · simp only [rebase]
    linarith
  · intro hcd
    simp only [rebase]
    linarith

/-- Witness for C3's amended bounds at d = 1, timescale = 2, a sample with
dts 3 and cts 4 kept in segment window 1 of 3. -/
theorem cut_kept_sample_bounds_witness :
    0 ≤ (rebase 1 2 (segIndex 1 2 sW3) sW3).dts ∧
    (rebase 1 2 (segIndex 1 2 sW3) sW3).dts < 1 * 2 ∧
    0 ≤ (rebase 1 2 (segIndex 1 2 sW3) sW3).cts := by
  have h := cut_kept_sample_bounds 1 2 3 sW3 (by norm_num) (by norm_num)
    (by norm_num [segIndex, sW3])
  exact ⟨h.1, h.2.1, h.2.2 (by norm_num [sW3])⟩

/-- Counterexample to C3 as stated: cutting this concrete source at segment
duration 1 keeps its only sample (segment index 1), and the clip returned by
cutVideo holds that sample rebased to cts = -1 < 0, refuting the claim that
both rebased destination timestamps are always non-negative. -/
theorem cut_negative_cts_counterexample :
    cutVideo vC3 1 =
      .ok [{ buf := [{ dts := 0, cts := -1, data := [7] }], name := "clip_02.mp4" }] ∧
    ((-1 : ℚ) < 0) := by
  constructor
  · norm_num [cutVideo, vC3, infoC3, getInfo, cutBuilders, numSegments, distribute,
      placeTrackSamples, placeSample, segIndex, rebase, updateAt, addSampleToFile,
      mkSegFile, getBuffer, finalizeFrom, clipName, padStart2]
    decide
  · norm_num

/-
Length preservation through the distribution pass, and the finalize loop.
-/

theorem updateAt_length {α : Type} (g : α → α) :
    ∀ (l : List α) (k : Nat), (updateAt l k g).length = l.length := by
  intro l
  induction l with
  | nil => intro k; rfl
  | cons a rest ih =>
      intro k
      cases k with
      | zero => simp [updateAt]
      | succ k => simp [updateAt, ih]

theorem placeSample_length (d : ℚ) (n : ℤ) (ts : ℚ) (tid : Nat)
    (files : List SegFile) (s : SampleRec) :
    (placeSample d n ts tid files s).length = files.length := by
  by_cases h : 0 ≤ segIndex d ts s ∧ segIndex d ts s < n <;>
    simp [placeSample, h, updateAt_length]

theorem foldl_place_length (d : ℚ) (n : ℤ) (ts : ℚ) (tid : Nat) :
    ∀ (ss : List SampleRec) (files : List SegFile),
      (List.foldl (placeSample d n ts tid) files ss).length = files.length := by
  intro ss
  induction ss with
  | nil => intro files; rfl
  | cons s rest ih =>
      intro files
      rw [List.foldl_cons, ih, placeSample_length]

theorem distribute_length (d : ℚ) (n : ℤ) :
    ∀ (tracks : List Track) (files : List SegFile),
      (distribute d n tracks files).length = files.length := by
  intro tracks
  induction tracks with
  | nil => intro files; rfl
  | cons t rest ih =>
      intro files
      simp only [distribute, List.foldl_cons] at ih ⊢
      rw [ih, placeTrackSamples, foldl_place_length]

theorem cutBuilders_length {v : VideoFile} {info : Info} (d : ℚ)
    (hok : getInfo v = .ok info) :
    (cutBuilders v d).length = (numSegments info d).toNat := by
  simp [cutBuilders, hok, distribute_length]

theorem finalizeFrom_length_filter :
    ∀ (i : Nat) (files : List SegFile),
      (finalizeFrom i files).length =
        (files.filter (fun f => 0 < (getBuffer f).length)).length := by
  intro i files
  induction files generalizing i with
  | nil => rfl
  | cons f rest ih =>
      by_cases h : 0 < (getBuffer f).length <;>
        simp [finalizeFrom, List.filter_cons, h, ih]

theorem finalizeFrom_length_le :
    ∀ (i : Nat) (files : List SegFile),
      (finalizeFrom i files).length ≤ files.length := by
  intro i files
  rw [finalizeFrom_length_filter]
  simpa using List.length_filter_le _ files

theorem finalizeFrom_map_name :
    ∀ (i : Nat) (files : List SegFile),
      (finalizeFrom i files).map Clip.name =
        (keptIndicesFrom i files).map clipName := by
  intro i files
  induction files generalizing i with
  | nil => rfl
  | cons f rest ih =>
      by_cases h : 0 < (getBuffer f).length <;>
        simp [finalizeFrom, keptIndicesFrom, h, ih]

theorem keptIndicesFrom_lb :
    ∀ (i : Nat) (files : List SegFile) (j : Nat),
      j ∈ keptIndicesFrom i files → i ≤ j := by
  intro i files
  induction files generalizing i with
  | nil => intro j hj; simp [keptIndicesFrom] at hj
  | cons f rest ih =>
      intro j hj
      by_cases h : 0 < (getBuffer f).length
      · simp only [keptIndicesFrom, if_pos h, List.mem_cons] at hj
        rcases hj with rfl | hj
        · exact le_refl j
        · exact le_trans (Nat.le_succ i) (ih (i + 1) j hj)
      · simp only [keptIndicesFrom, if_neg h] at hj
        exact le_trans (Nat.le_succ i) (ih (i + 1) j hj)

theorem keptIndicesFrom_sorted :
    ∀ (i : Nat) (files : List SegFile),
      List.Sorted (· < ·) (keptIndicesFrom i files) := by
  intro i files
  induction files generalizing i with
  | nil => simp [keptIndicesFrom]
  | cons f rest ih =>
      by_cases h : 0 < (getBuffer f).length
      · simp only [keptIndicesFrom, if_pos h, List.sorted_cons]
        refine ⟨fun j hj => ?_, ih (i + 1)⟩
        exact lt_of_lt_of_le (Nat.lt_succ_self i) (keptIndicesFrom_lb (i + 1) rest j hj)
      · simp only [keptIndicesFrom, if_neg h]
        exact ih (i + 1)

/-- Dissection of a successful cutVideo run: the clips are the finalize of the
builders, the total duration was positive, and the extraction-failure
rejection did not fire. -/
theorem cutVideo_ok_elim {v : VideoFile} {d : ℚ} {info : Info} {clips : List Clip}
    (hp : v.parse = some info) (ht : info.tracks ≠ [])
    (hok : cutVideo v d = .ok clips) :
    clips = finalizeFrom 0 (cutBuilders v d) ∧
    ¬(info.duration / info.timescale ≤ 0) ∧
    ¬((finalizeFrom 0 (cutBuilders v d)).length = 0 ∧ 0 < numSegments info d) := by
  have hg := getInfo_eq_ok hp ht
  simp only [cutVideo, hg] at hok
  by_cases h1 : info.duration / info.timescale ≤ 0
  · simp [h1] at hok
  · simp only [h1, if_false] at hok
    by_cases h2 : (finalizeFrom 0 (cutBuilders v d)).length = 0 ∧ 0 < numSegments info d
    · simp [h2] at hok
    · simp only [h2, if_false, Except.ok.injEq] at hok
      exact ⟨hok.symm, h1, h2⟩

/-- C2 (amended): for a successful cut, the number of returned segments equals
the number of builders whose finalized buffer is non-empty (which can be less
than ceil(totalDuration / segmentDuration), and is never more), and the clips
are returned in ascending segment-index order with the 1-indexed zero-padded
names of their segment windows. -/
theorem cut_segment_count (v : VideoFile) (d : ℚ) (info : Info) (clips : List Clip)
    (hp : v.parse = some info) (ht : info.tracks ≠ [])
    (hok : cutVideo v d = .ok clips) :
    clips.length =
      ((cutBuilders v d).filter (fun f => 0 < (getBuffer f).length)).length ∧
    clips.map Clip.name = (keptIndicesFrom 0 (cutBuilders v d)).map clipName ∧
    List.Sorted (· < ·) (keptIndicesFrom 0 (cutBuilders v d)) ∧
    clips.length ≤ (numSegments info d).toNat := by
  obtain ⟨hc, -, -⟩ := cutVideo_ok_elim hp ht hok
  subst hc
  refine ⟨finalizeFrom_length_filter 0 _, finalizeFrom_map_name 0 _,
    keptIndicesFrom_sorted 0 _, ?_⟩
  calc (finalizeFrom 0 (cutBuilders v d)).length
      ≤ (cutBuilders v d).length := finalizeFrom_length_le 0 _
    _ = (numSegments info d).toNat := cutBuilders_length d (getInfo_eq_ok hp ht)

/-- Witness for C2's amended count and ordering at a concrete source whose
second segment window is empty. -/
theorem cut_segment_count_witness :
    ([{ buf := [{ dts := 0, cts := 0, data := [7] }],
        name := "clip_01.mp4" }] : List Clip).length =
      ((cutBuilders vC2 1).filter (fun f => 0 < (getBuffer f).length)).length ∧
    ([{ buf := [{ dts := 0, cts := 0, data := [7] }],
        name := "clip_01.mp4" }] : List Clip).map Clip.name =
      (keptIndicesFrom 0 (cutBuilders vC2 1)).map clipName ∧
    List.Sorted (· < ·) (keptIndicesFrom 0 (cutBuilders vC2 1)) ∧
    ([{ buf := [{ dts := 0, cts := 0, data := [7] }],
        name := "clip_01.mp4" }] : List Clip).length ≤ (numSegments infoC2 1).toNat :=
  cut_segment_count vC2 1 infoC2 _ rfl (by simp [infoC2])
    (by norm_num [cutVideo, vC2, infoC2, getInfo, cutBuilders, numSegments, distribute,
          placeTrackSamples, placeSample, segIndex, rebase, updateAt, addSampleToFile,
          mkSegFile, getBuffer, finalizeFrom, clipName, padStart2]
        decide)

/-- Counterexample to C2 as stated: this valid source (positive duration, one
track, segment duration 1) has ceil(totalDuration / segmentDuration) = 2, but
cutVideo returns a single clip, because the second segment window receives no
sample and its builder is skipped. -/
theorem cut_segment_count_counterexample :
    cutVideo vC2 1 =
      .ok [{ buf := [{ dts := 0, cts := 0, data := [7] }], name := "clip_01.mp4" }] ∧
    numSegments infoC2 1 = 2 := by
  constructor
  · norm_num [cutVideo, vC2, infoC2, getInfo, cutBuilders, numSegments, distribute,
      placeTrackSamples, placeSample, segIndex, rebase, updateAt, addSampleToFile,
      mkSegFile, getBuffer, finalizeFrom, clipName, padStart2]
    decide
  · norm_num [numSegments, infoC2]

/-
Empty builders in the finalize loop.
-/

theorem getBuffer_eq_nil {f : SegFile} (hf : ∀ tr ∈ f, tr.samples = []) :
    getBuffer f = [] := by
  induction f with
  | nil => rfl
  | cons tr rest ih =>
      have h1 : tr.samples = [] := hf tr (List.mem_cons_self tr rest)
      have h2 : ∀ tr' ∈ rest, tr'.samples = [] :=
        fun tr' h => hf tr' (List.mem_cons_of_mem tr h)
      simp [getBuffer, h1]
      simpa [getBuffer] using ih h2

theorem finalizeFrom_append :
    ∀ (A : List SegFile) (i : Nat) (B : List SegFile),
      finalizeFrom i (A ++ B) = finalizeFrom i A ++ finalizeFrom (i + A.length) B := by
  intro A
  induction A with
  | nil => intro i B; simp [finalizeFrom]
  | cons f rest ih =>
      intro i B
      by_cases h : 0 < (getBuffer f).length <;>
        simp [finalizeFrom, h, ih, Nat.add_assoc, Nat.add_comm 1 rest.length]

/-- C6 (amended): a builder that received zero samples across all of its
tracks contributes no entry to the finalize loop's output, and every other
builder keeps its contribution and its index-derived name; however the code
does finalize it (getBuffer runs on every builder, see the counterexample)
and merely discards the empty buffer. -/
theorem cut_empty_builder_no_entry (f : SegFile) (hf : ∀ tr ∈ f, tr.samples = []) :
    ∀ (i : Nat) (A B : List SegFile),
      finalizeFrom i (A ++ f :: B) =
        finalizeFrom i A ++ finalizeFrom (i + A.length + 1) B := by
  intro i A B
  have hbuf : getBuffer f = [] := getBuffer_eq_nil hf
  rw [finalizeFrom_append]
  have : finalizeFrom (i + A.length) (f :: B) = finalizeFrom (i + A.length + 1) B := by
    simp [finalizeFrom, hbuf]
  rw [this]

/-- Witness for C6's amended statement: the empty middle builder contributes
no clip, while its neighbours keep theirs. -/
theorem cut_empty_builder_no_entry_witness :
    finalizeFrom 0 ([fileA] ++ fileE :: [fileB]) =
      finalizeFrom 0 [fileA] ++ finalizeFrom (0 + [fileA].length + 1) [fileB] :=
  cut_empty_builder_no_entry fileE (by decide) 0 [fileA] [fileB]

/-- Counterexample to C6 as stated: cutting this source at duration 1 leaves
the second builder with zero samples, and the claim's "discarded without ever
being finalized" fails: the onFlush loop runs getBuffer on every builder
(finalizedBuffers lists the produced buffers, one per builder, the second one
empty); the empty builder is finalized and only its buffer is discarded,
while it indeed contributes no entry to the returned list. -/
theorem cut_empty_builder_finalized_counterexample :
    cutBuilders vC2 1 =
      [[{ id := 1, timescale := 1, nb_samples := 0, duration := 0, config := [3],
          samples := [{ dts := 0, cts := 0, data := [7] }] }],
       [{ id := 1, timescale := 1, nb_samples := 0, duration := 0, config := [3],
          samples := [] }]] ∧
    finalizedBuffers (cutBuilders vC2 1) =
      [[{ dts := 0, cts := 0, data := [7] }], []] ∧
    cutVideo vC2 1 =
      .ok [{ buf := [{ dts := 0, cts := 0, data := [7] }], name := "clip_01.mp4" }] := by
  refine ⟨?_, ?_, ?_⟩
  · norm_num [cutBuilders, vC2, infoC2, getInfo, numSegments, distribute,
      placeTrackSamples, placeSample, segIndex, rebase, updateAt, addSampleToFile,
      mkSegFile]
  · norm_num [finalizedBuffers, cutBuilders, vC2, infoC2, getInfo, numSegments,
      distribute, placeTrackSamples, placeSample, segIndex, rebase, updateAt,
      addSampleToFile, mkSegFile, getBuffer]
  · norm_num [cutVideo, vC2, infoC2, getInfo, cutBuilders, numSegments, distribute,
      placeTrackSamples, placeSample, segIndex, rebase, updateAt, addSampleToFile,
      mkSegFile, getBuffer, finalizeFrom, clipName, padStart2]
    decide

/-
Provenance of the samples stored in the builders.
-/

theorem rebase_zero (d ts : ℚ) (s : SampleRec) : rebase d ts 0 s = s := by
  simp [rebase]

theorem mem_getBuffer_addSample {tid : Nat} {s x : SampleRec} :
    ∀ f : SegFile, x ∈ getBuffer (addSampleToFile f tid s) → x ∈ getBuffer f ∨ x = s := by
  intro f
  induction f with
  | nil => intro h; simp [addSampleToFile, getBuffer] at h
  | cons tr rest ih =>
      intro h
      by_cases htr : tr.id = tid
      · simp only [addSampleToFile, if_pos htr, getBuffer, List.map_cons,
          List.flatten_cons, List.mem_append, List.mem_cons] at h
        rcases h with (h | h) | h
        · exact Or.inl (by simp [getBuffer, h])
        · simp at h
          exact Or.inr h
        · exact Or.inl (by simp [getBuffer]; right; simpa [getBuffer] using h)
      · simp only [addSampleToFile, if_neg htr, getBuffer, List.map_cons,
          List.flatten_cons, List.mem_append] at h
        rcases h with h | h
        · exact Or.inl (by simp [getBuffer, h])
        · rcases ih (by simpa [getBuffer] using h) with h' | h'
          · exact Or.inl (by simp [getBuffer]; right; simpa [getBuffer] using h')
          · exact Or.inr h'

theorem mem_stored_updateAt {g : SegFile → SegFile} {s x : SampleRec}
    (hg : ∀ f : SegFile, x ∈ getBuffer (g f) → x ∈ getBuffer f ∨ x = s) :
    ∀ (files : List SegFile) (k : Nat),
      x ∈ storedSamples (updateAt files k g) → x ∈ storedSamples files ∨ x = s := by
  intro files
  induction files with
  | nil => intro k h; simp [updateAt, storedSamples] at h
  | cons f rest ih =>
      intro k h
      cases k with
      | zero =>
          simp only [updateAt, storedSamples, List.map_cons, List.flatten_cons,
            List.mem_append] at h
          rcases h with h | h
          · rcases hg f h with h' | h'
            · exact Or.inl (by simp [storedSamples]; exact Or.inl h')
            · exact Or.inr h'
          · exact Or.inl (by simp [storedSamples]; right; simpa [storedSamples] using h)
      | succ k =>
          simp only [updateAt, storedSamples, List.map_cons, List.flatten_cons,
            List.mem_append] at h
          rcases h with h | h
          · exact Or.inl (by simp [storedSamples]; exact Or.inl h)
          · rcases ih k (by simpa [storedSamples] using h) with h' | h'
            · exact Or.inl (by simp [storedSamples]; right; simpa [storedSamples] using h')
            · exact Or.inr h'

theorem mem_stored_placeSample {d : ℚ} {n : ℤ} {ts : ℚ} {tid : Nat}
    {files : List SegFile} {s x : SampleRec}
    (h : x ∈ storedSamples (placeSample d n ts tid files s)) :
    x ∈ storedSamples files ∨
      (0 ≤ segIndex d ts s ∧ segIndex d ts s < n ∧
        x = rebase d ts (segIndex d ts s) s) := by
  by_cases hin : 0 ≤ segIndex d ts s ∧ segIndex d ts s < n
  · simp only [placeSample, if_pos hin] at h
    rcases mem_stored_updateAt (fun f hb => mem_getBuffer_addSample f hb) files
        (segIndex d ts s).toNat h with h' | h'
    · exact Or.inl h'
    · exact Or.inr ⟨hin.1, hin.2, h'⟩
  · simp only [placeSample, if_neg hin] at h
    exact Or.inl h

theorem stored_foldl_preserve {d : ℚ} {n : ℤ} {ts : ℚ} {tid : Nat}
    (Q : SampleRec → Prop) :
    ∀ (ss : List SampleRec) (files : List SegFile),
      (∀ s₀ ∈ ss, ∀ i : ℤ, 0 ≤ i → i < n → Q (rebase d ts i s₀)) →
      (∀ x ∈ storedSamples files, Q x) →
      ∀ x ∈ storedSamples (List.foldl (placeSample d n ts tid) files ss), Q x := by
  intro ss
  induction ss with
  | nil => intro files _ hfiles x hx; exact hfiles x hx
  | cons s rest ih =>
      intro files hss hfiles x hx
      rw [List.foldl_cons] at hx
      refine ih (placeSample d n ts tid files s)
        (fun s₀ hs₀ => hss s₀ (List.mem_cons_of_mem s hs₀)) ?_ x hx
      intro y hy
      rcases mem_stored_placeSample hy with hy' | ⟨h0, h1, rfl⟩
      · exact hfiles y hy'
      · exact hss s (List.mem_cons_self s rest) (segIndex d ts s) h0 h1

theorem stored_distribute_preserve {d : ℚ} {n : ℤ} (Q : SampleRec → Prop) :
    ∀ (tracks : List Track) (files : List SegFile),
      (∀ t ∈ tracks, ∀ s₀ ∈ t.samples, ∀ i : ℤ, 0 ≤ i → i < n →
        Q (rebase d t.timescale i s₀)) →
      (∀ x ∈ storedSamples files, Q x) →
      ∀ x ∈ storedSamples (distribute d n tracks files), Q x := by
  intro tracks
  induction tracks with
  | nil => intro files _ hfiles x hx; exact hfiles x hx
  | cons t rest ih =>
      intro files htracks hfiles x hx
      simp only [distribute, List.foldl_cons] at hx
      refine ih (placeTrackSamples d n files t)
        (fun t' ht' => htracks t' (List.mem_cons_of_mem t ht')) ?_ x hx
      intro y hy
      exact stored_foldl_preserve Q t.samples files
        (htracks t (List.mem_cons_self t rest)) hfiles y hy

theorem getBuffer_mkSegFile (tracks : List Track) : getBuffer (mkSegFile tracks) = [] := by
  induction tracks with
  | nil => rfl
  | cons t rest ih => simpa [getBuffer, mkSegFile] using ih

theorem storedSamples_replicate_mk (tracks : List Track) :
    ∀ k : Nat, storedSamples (List.replicate k (mkSegFile tracks)) = [] := by
  intro k
  induction k with
  | zero => rfl
  | succ k ih =>
      simp [storedSamples, List.replicate_succ, getBuffer_mkSegFile]

/-- C5 (amended): when the segment duration is at least the (positive) total
duration, numSegments is exactly 1, any successful cut returns exactly one
clip (an unsuccessful cut rejects with the extraction-failure error when no
sample was kept, see the counterexample), and every sample stored in the
single builder is one of the source's own sample records, with destination
dts and cts identical to the source values (the rebasing offset is zero). -/
theorem cut_single_segment (v : VideoFile) (d : ℚ) (info : Info)
    (hp : v.parse = some info) (ht : info.tracks ≠ [])
    (hpos : 0 < info.duration / info.timescale)
    (hle : info.duration / info.timescale ≤ d) :
    numSegments info d = 1 ∧
    (∀ clips, cutVideo v d = .ok clips → clips.length = 1) ∧
    (∀ x ∈ storedSamples (cutBuilders v d), x ∈ sourceSamples info) := by
  have hd : 0 < d := lt_of_lt_of_le hpos hle
  have hn : numSegments info d = 1 := by
    have hle1 : numSegments info d ≤ 1 := by
      rw [numSegments, Int.ceil_le]
      push_cast
      exact (div_le_one hd).mpr hle
    have hge1 : 1 ≤ numSegments info d := by
      have : (0 : ℤ) < numSegments info d := by
        rw [numSegments, Int.ceil_pos]
        exact div_pos hpos hd
      omega
    omega
  have hg := getInfo_eq_ok hp ht
  refine ⟨hn, ?_, ?_⟩
  · intro clips hok
    obtain ⟨hc, -, hnof⟩ := cutVideo_ok_elim hp ht hok
    have hlen_le : clips.length ≤ 1 := by
      rw [hc]
      calc (finalizeFrom 0 (cutBuilders v d)).length
          ≤ (cutBuilders v d).length := finalizeFrom_length_le 0 _
        _ = (numSegments info d).toNat := cutBuilders_length d hg
        _ = 1 := by rw [hn]; rfl
    have hlen_ne : clips.length ≠ 0 := by
      intro h0
      exact hnof ⟨by rw [← hc, h0], by rw [hn]; exact Int.zero_lt_one⟩
    omega
  · intro x hx
    simp only [cutBuilders, hg] at hx
    refine stored_distribute_preserve (fun y => y ∈ sourceSamples info)
      info.tracks _ ?_ ?_ x hx
    · intro t htmem s₀ hs₀ i h0 h1
      have hi : i = 0 := by
        rw [hn] at h1
        omega
      subst hi
      rw [rebase_zero]
      simp only [sourceSamples, List.mem_flatten]
      exact ⟨t.samples, List.mem_map_of_mem Track.samples htmem, hs₀⟩
    · intro y hy
      rw [storedSamples_replicate_mk] at hy
      simp at hy

/-- Witness for C5: a 2-second source cut at duration 2 has a single segment
window, and its stored sample is the source's own record. -/
theorem cut_single_segment_witness :
    numSegments infoW5 2 = 1 ∧
    ({ dts := 0, cts := 0, data := [9] } : SampleRec) ∈ sourceSamples infoW5 :=
  ⟨(cut_single_segment vW5 2 infoW5 rfl (by simp [infoW5]) (by norm_num [infoW5])
      (by norm_num [infoW5])).1,
   (cut_single_segment vW5 2 infoW5 rfl (by simp [infoW5]) (by norm_num [infoW5])
      (by norm_num [infoW5])).2.2 _
     (by norm_num [storedSamples, cutBuilders, vW5, infoW5, getInfo, numSegments,
           distribute, placeTrackSamples, placeSample, segIndex, rebase, updateAt,
           addSampleToFile, mkSegFile, getBuffer])⟩

/-- Counterexample to C5 as stated: this parseable source has positive total
duration 2 and segment duration 2 ≥ 2, yet cutVideo does not yield exactly
one segment: its only track carries no samples, the single builder stays
empty, and the run rejects with the extraction-failure error. -/
theorem cut_single_segment_error_counterexample :
    cutVideo vC5 2 = .error .extractionFailure ∧
    0 < infoC5.duration / infoC5.timescale ∧
    infoC5.duration / infoC5.timescale ≤ 2 := by
  refine ⟨?_, by norm_num [infoC5], by norm_num [infoC5]⟩
  norm_num [cutVideo, vC5, infoC5, getInfo, cutBuilders, numSegments, distribute,
    placeTrackSamples, placeSample, segIndex, rebase, updateAt, addSampleToFile,
    mkSegFile, getBuffer, finalizeFrom]

/-
The concatenation loop.
-/

theorem parseOk_elim {v : VideoFile} (h : parseOk v = true) :
    ∃ info, v.parse = some info ∧ info.tracks ≠ [] := by
  unfold parseOk at h
  cases hv : v.parse with
  | none => rw [hv] at h; simp at h
  | some info =>
      rw [hv] at h
      simp only [Bool.not_eq_true'] at h
      exact ⟨info, rfl, by simpa [List.isEmpty_iff] using h⟩

theorem shiftSample_zero (s : SampleRec) : shiftSample 0 s = s := by
  simp [shiftSample]

theorem foldl_shift_append (acc : ℚ) :
    ∀ (ss : List SampleRec) (tr : OutTrack),
      ss.foldl (fun t s => { t with samples := t.samples ++ [shiftSample acc s] }) tr =
        { tr with samples := tr.samples ++ ss.map (shiftSample acc) } := by
  intro ss
  induction ss with
  | nil => intro tr; simp
  | cons s rest ih =>
      intro tr
      rw [List.foldl_cons, ih]
      simp

/-- Unfolding of the expected-sample characterization at a parseable source. -/
theorem expectedCombined_cons {v : VideoFile} {info : Info} {t : Track}
    {ts : List Track} (hv : v.parse = some info) (htr : info.tracks = t :: ts)
    (rest : List VideoFile) (acc : ℚ) :
    expectedCombined (v :: rest) acc =
      t.samples.map (shiftSample acc) ++ expectedCombined rest (acc + info.duration) := by
  simp [expectedCombined, hv, htr]

/-- The combine loop, run over parseable sources only, accumulates exactly the
expected samples onto the destination track and succeeds. -/
theorem combineLoop_ok :
    ∀ (vs : List VideoFile) (i : Nat) (acc : ℚ) (tr : OutTrack) (evs : List Event),
      (∀ v ∈ vs, parseOk v = true) →
      ∃ evs', combineLoop vs i acc tr evs =
        (evs', .ok { tr with samples := tr.samples ++ expectedCombined vs acc }) := by
  intro vs
  induction vs with
  | nil =>
      intro i acc tr evs _
      exact ⟨evs, by simp [combineLoop, expectedCombined]⟩
  | cons v rest ih =>
      intro i acc tr evs hall
      obtain ⟨info, hv, htne⟩ := parseOk_elim (hall v (List.mem_cons_self v rest))
      obtain ⟨t, ts, htr⟩ : ∃ t ts, info.tracks = t :: ts := by
        cases h : info.tracks with
        | nil => exact absurd h htne
        | cons t ts => exact ⟨t, ts, rfl⟩
      have hgi : getInfo v = .ok info := getInfo_eq_ok hv htne
      have hgs : getSamples v = .ok t.samples := by
        simp [getSamples, hv, htr]
      obtain ⟨evs', hrec⟩ := ih (i + 1) (acc + info.duration)
        { tr with samples := tr.samples ++ t.samples.map (shiftSample acc) }
        (evs ++ [.parseSource i, .extractSamples i])
        (fun v' hv' => hall v' (List.mem_cons_of_mem v hv'))
      refine ⟨evs', ?_⟩
      rw [combineLoop]
      rw [hgi, hgs]
      simp only [foldl_shift_append]
      rw [hrec, expectedCombined_cons hv htr]
      simp [List.append_assoc]

/-- Shared characterization of a multi-source combine over parseable inputs:
one destination track copied from the first source's first track (id 1,
counters zeroed), holding the expected concatenation of per-source shifted
first-track samples. -/
theorem combine_built_spec (v0 v1 : VideoFile) (rest : List VideoFile)
    (info0 : Info) (t0 : Track) (ts0 : List Track)
    (h0 : v0.parse = some info0) (htr : info0.tracks = t0 :: ts0)
    (hall : ∀ v ∈ v0 :: v1 :: rest, parseOk v = true) :
    ∃ evs, combineVideos (v0 :: v1 :: rest) =
      (evs, .ok (.built
        [{ id := 1, timescale := t0.timescale, nb_samples := 0, duration := 0,
           config := t0.config,
           samples := expectedCombined (v0 :: v1 :: rest) 0 }])) := by
  have htne : info0.tracks ≠ [] := by rw [htr]; simp
  have hgi : getInfo v0 = .ok info0 := getInfo_eq_ok h0 htne
  obtain ⟨evs', hloop⟩ := combineLoop_ok (v0 :: v1 :: rest) 0 0
    { id := 1, timescale := t0.timescale, nb_samples := 0, duration := 0,
      config := t0.config, samples := [] }
    [.createContainer, .parseSource 0] hall
  refine ⟨evs', ?_⟩
  rw [combineVideos]
  simp only [hgi, htr]
  rw [hloop]
  simp

/-- C1 (amended): for every combine over two or more parseable sources, the
destination container contains exactly ONE destination track: it mirrors the
descriptor of the FIRST track of the first source (timescale and codec
configuration copied; identifier overwritten to the fresh value 1; sample
count and duration reset to zero), and for every source, the samples of its
first track only are appended to that single track, shifted by the
accumulated duration of the earlier sources. -/
theorem combine_track_layout (v0 v1 : VideoFile) (rest : List VideoFile)
    (info0 : Info) (t0 : Track) (ts0 : List Track)
    (h0 : v0.parse = some info0) (htr : info0.tracks = t0 :: ts0)
    (hall : ∀ v ∈ v0 :: v1 :: rest, parseOk v = true) :
    ∃ evs, combineVideos (v0 :: v1 :: rest) =
      (evs, .ok (.built
        [{ id := 1, timescale := t0.timescale, nb_samples := 0, duration := 0,
           config := t0.config,
           samples := expectedCombined (v0 :: v1 :: rest) 0 }])) :=
  combine_built_spec v0 v1 rest info0 t0 ts0 h0 htr hall

/-- Witness for C1's amended track layout on two concrete single-track
sources. -/
theorem combine_track_layout_witness :
    (combineVideos [vAw, vBw]).2 =
      .ok (.built
        [{ id := 1, timescale := 1, nb_samples := 0, duration := 0, config := [21],
           samples := [{ dts := 0, cts := 1, data := [8] },
                       { dts := 6, cts := 7, data := [9] }] }]) := by
  obtain ⟨evs, h⟩ := combine_track_layout vAw vBw [] infoAw
    { id := 1, timescale := 1, nb_samples := 1, duration := 4, config := [21],
      samples := [{ dts := 0, cts := 1, data := [8] }] } [] rfl
    (by simp [infoAw]) (by decide)
  rw [h]
  norm_num [infoAw, expectedCombined, vAw, vBw, infoBw, shiftSample]

/-- Counterexample to C1 as stated: the first source has two tracks, but the
destination container built by combineVideos has a single track, carrying
only the first-track samples of each source; the second track's sample
(payload [5]) appears nowhere in the output. -/
theorem combine_multitrack_counterexample :
    (combineVideos [vA, vB]).2 =
      .ok (.built
        [{ id := 1, timescale := 1, nb_samples := 0, duration := 0, config := [11],
           samples := [{ dts := 0, cts := 0, data := [4] },
                       { dts := 10, cts := 10, data := [6] }] }]) ∧
    infoA.tracks.length = 2 := by
  constructor
  · obtain ⟨evs, h⟩ := combine_built_spec vA vB [] infoA
      { id := 1, timescale := 1, nb_samples := 1, duration := 10, config := [11],
        samples := [{ dts := 0, cts := 0, data := [4] }] }
      [{ id := 2, timescale := 1, nb_samples := 1, duration := 10, config := [12],
         samples := [{ dts := 0, cts := 0, data := [5] }] }] rfl
      (by simp [infoA]) (by decide)
    rw [h]
    norm_num [infoA, expectedCombined, vA, vB, infoB, shiftSample]
  · norm_num [infoA]

/-- C10: in a multi-source combine over parseable inputs, the first source's
samples are appended with dts and cts unchanged (the accumulated offset is
zero while the first source is processed), and all samples of each source
precede every sample of later sources in the destination track, in input
order. -/
theorem combine_source_order_offsets (v0 v1 : VideoFile) (rest : List VideoFile)
    (info0 : Info) (t0 : Track) (ts0 : List Track)
    (h0 : v0.parse = some info0) (htr : info0.tracks = t0 :: ts0)
    (hall : ∀ v ∈ v0 :: v1 :: rest, parseOk v = true) :
    ∃ evs, combineVideos (v0 :: v1 :: rest) =
      (evs, .ok (.built
        [{ id := 1, timescale := t0.timescale, nb_samples := 0, duration := 0,
           config := t0.config,
           samples := t0.samples ++ expectedCombined (v1 :: rest) info0.duration }])) := by
  obtain ⟨evs, h⟩ := combine_built_spec v0 v1 rest info0 t0 ts0 h0 htr hall
  refine ⟨evs, ?_⟩
  rw [h, expectedCombined_cons h0 htr (v1 :: rest) 0, funext shiftSample_zero]
  simp

/-- Witness for C10 on two concrete single-track sources: the first source's
sample keeps dts 1 / cts 1, the second source's sample follows it shifted by
the first source's duration 5. -/
theorem combine_source_order_offsets_witness :
    (combineVideos [vAx, vBx]).2 =
      .ok (.built
        [{ id := 1, timescale := 1, nb_samples := 0, duration := 0, config := [31],
           samples := [{ dts := 1, cts := 1, data := [10] },
                       { dts := 5, cts := 5, data := [11] }] }]) := by
  obtain ⟨evs, h⟩ := combine_source_order_offsets vAx vBx [] infoAx
    { id := 1, timescale := 1, nb_samples := 1, duration := 5, config := [31],
      samples := [{ dts := 1, cts := 1, data := [10] }] } [] rfl
    (by simp [infoAx]) (by decide)
  rw [h]
  norm_num [infoAx, expectedCombined, vBx, infoBx, shiftSample]

end VU
